import Mathlib

/-!
Shallow embedding of the yapl line parser (src/yapl/src/parser/line.rs).

The parser core (`Parser::parse`, `parse_statement`, `parse_whitespace`,
`parse_inner`, `parse_bracket`) is translated from line.rs.  The helper
modules referenced by line.rs (stream.rs, symbol.rs, unit.rs, ast.rs,
common/file.rs) are absent from the sources, so the corresponding
definitions are modelled from the specification, as marked in their doc
comments.

Modelling conventions: machine integers are Nat with explicit `% 256`
where the code casts to u8 (u8 overflow is modelled wrapping); fallible
code returns `PRes` with `ok` / `err`; Rust `panic!` and `unwrap()` on
`None` are modelled by `PRes.panic`.  The recursion of the parser is
fuel-indexed (fuel decreases once per dispatch-loop iteration); `parse`
supplies fuel `length + 1`, and `PRes.oof` marks fuel exhaustion, which
is proven unreachable.
-/

namespace Yapl

/-- Modelled from the spec: `Position` from common/file.rs (absent from src),
spec section 3: a (line number, column offset) location; `mov` advances the
column offset by a fixed amount. -/
structure Position where
  line : Nat
  offset : Nat
  deriving DecidableEq, Repr

def Position.new (l o : Nat) : Position := ⟨l, o⟩

def Position.mov (p : Position) (n : Nat) : Position := ⟨p.line, p.offset + n⟩

/-- Modelled from the spec: `Span` from common/file.rs (absent from src),
spec section 3: a start position plus an extent; `new` takes begin and end
positions, `new_p` takes a begin position and a length in characters. -/
structure Span where
  begin : Position
  endPos : Position
  deriving DecidableEq, Repr

def Span.new (b e : Position) : Span := ⟨b, e⟩

def Span.new_p (p : Position) (n : Nat) : Span := ⟨p, p.mov n⟩

/-- Modelled from the spec: `Error` from common/file.rs (absent from src),
spec section 3: a message string plus a span pinpointing the offending
region. -/
structure Error where
  msg : String
  span : Span
  deriving DecidableEq, Repr

def Error.new (m : String) (sp : Span) : Error := ⟨m, sp⟩

/-- Modelled from the spec: bracket families (round/square/curly), from
symbol.rs (absent from src), spec section 4.2. -/
inductive BracketType where
  | Round
  | Square
  | Curly
  deriving DecidableEq, Repr

/-- Modelled from the spec: `SymbolType` from symbol.rs (absent from src),
spec section 3: the closed classification of an optional lookahead
character. -/
inductive SymbolType where
  | NewLine
  | EOS
  | Dot
  | Comma
  | Whitespace (width : Nat)
  | Other
  | Quote
  | Letter (c : Char)
  | Digit (d : Nat)
  | Special (c : Char)
  | Inner
  | Bracket (t : BracketType) (opening : Bool)
  deriving DecidableEq, Repr

/-- Modelled from the spec: the operator-class characters recognised by the
classifier (symbol.rs absent from src). -/
def specialChars : List Char :=
  ['+', '-', '*', '/', '=', '<', '>', '!', '&', '|', '^', '%', '~', ':', ';', '?', '@', '$']

/-- Modelled from the spec: `SymbolType::from` (symbol.rs absent from src),
spec section 4.2: a pure, total, deterministic classification of
`Option Char`; absence of a character is `EOS`.  The comment introducer is
`#` and each whitespace character occupies one column. -/
def SymbolType.classify : Option Char → SymbolType
  | none => .EOS
  | some c =>
    if c = '\n' then .NewLine
    else if c = ' ' then .Whitespace 1
    else if c = '\t' then .Whitespace 1
    else if c = '.' then .Dot
    else if c = ',' then .Comma
    else if c = '"' then .Quote
    else if c = '#' then .Inner
    else if c = '(' then .Bracket .Round true
    else if c = ')' then .Bracket .Round false
    else if c = '[' then .Bracket .Square true
    else if c = ']' then .Bracket .Square false
    else if c = Char.ofNat 123 then .Bracket .Curly true
    else if c = Char.ofNat 125 then .Bracket .Curly false
    else if c.isAlpha || c = '_' then .Letter c
    else if c.isDigit then .Digit (c.toNat - 48)
    else if specialChars.contains c then .Special c
    else .Other

/-- Whether a character is classified as whitespace (the classifier maps
exactly the space and tab characters to `Whitespace`). -/
def isWsCh (c : Char) : Bool :=
  c = ' ' || c = '\t'

mutual

/-- Modelled from the spec: `Statement` from ast.rs (absent from src), spec
section 3: the tagged union of parsed units; `Bracket` is the only
recursive variant. -/
inductive Statement where
  | None
  | Chain (val : String)
  | LitString (val : String)
  | LitInt (val : Nat)
  | Special (val : String)
  | Bracket (val : BracketType × List Sentence)

/-- Modelled from the spec: `Sentence` from ast.rs (absent from src), spec
section 3: an ordered sequence of (Statement, Span) pairs plus an overall
span. -/
inductive Sentence where
  | mk (statements : List (Statement × Span)) (span : Span)

end

def Sentence.statements : Sentence → List (Statement × Span)
  | .mk s _ => s

def Sentence.span : Sentence → Span
  | .mk _ sp => sp

/-- Modelled from the spec: `Line` from ast.rs (absent from src), spec
section 3: wraps exactly one top-level sentence. -/
structure Line where
  sentence : Sentence

def Line.new (s : Sentence) : Line := ⟨s⟩

/-- The parser state: the remaining characters of the line, the characters
consumed since the last `taken()` reference point, and the running
position.  Modelled from the spec: the `Stream` cursor (stream.rs absent
from src, spec section 4.1) fused with the `Parser` struct of line.rs;
`taken` counts characters consumed since the caller's last reference
point and is reset each time it is read. -/
structure ParserSt where
  rest : List Char
  taken : Nat
  pos : Position
  deriving DecidableEq, Repr

/-- Result of a parser-level computation: success, a spanned error
(line.rs `Result<_, Error>`), a Rust panic (`panic!` or `unwrap` on
`None`), or fuel exhaustion of the embedding (proven unreachable). -/
inductive PRes (α : Type) where
  | ok (a : α)
  | err (e : Error)
  | panic
  | oof

/-- Result of a unit-scanner-level computation (line.rs
`Result<_, String>`): the error is a plain message and the stream state is
kept so the caller can compute the span of the consumed region. -/
inductive URes (α : Type) where
  | ok (a : α) (s : ParserSt)
  | err (msg : String) (s : ParserSt)
  | panic

def PRes.errMsg : PRes α → Option String
  | .err e => some e.msg
  | _ => none

def PRes.isOk : PRes α → Bool
  | .ok _ => true
  | _ => false

/-- Splits a list into its longest prefix satisfying `p` and the remainder. -/
def spanChars (p : Char → Bool) : List Char → List Char × List Char
  | [] => ([], [])
  | c :: r =>
    if p c then (c :: (spanChars p r).1, (spanChars p r).2)
    else ([], c :: r)

/-- Characters consumed by the identifier-chain scanner. -/
def isChainCh (c : Char) : Bool :=
  match SymbolType.classify (some c) with
  | .Letter _ => true
  | .Digit _ => true
  | _ => false

/-- Characters consumed by the integer-literal scanner. -/
def isDigitCh (c : Char) : Bool :=
  match SymbolType.classify (some c) with
  | .Digit _ => true
  | _ => false

/-- Characters consumed by the special-symbol-run scanner. -/
def isSpecialCh (c : Char) : Bool :=
  match SymbolType.classify (some c) with
  | .Special _ => true
  | _ => false

/-- Modelled from the spec: `unit::chain` (unit.rs absent from src), spec
section 6: consumes a maximal run of identifier characters and returns the
chain representation. -/
def unit_chain (s : ParserSt) : URes Statement :=
  .ok (Statement.Chain (String.mk (spanChars isChainCh s.rest).1))
    ⟨(spanChars isChainCh s.rest).2, s.taken + (spanChars isChainCh s.rest).1.length, s.pos⟩

def digitsVal (l : List Char) : Nat :=
  l.foldl (fun a c => a * 10 + (c.toNat - 48)) 0

/-- Modelled from the spec: `unit::int` (unit.rs absent from src), spec
section 6: consumes a maximal run of digit characters and returns the
parsed value. -/
def unit_int (s : ParserSt) : URes Statement :=
  .ok (Statement.LitInt (digitsVal (spanChars isDigitCh s.rest).1))
    ⟨(spanChars isDigitCh s.rest).2, s.taken + (spanChars isDigitCh s.rest).1.length, s.pos⟩

/-- Modelled from the spec: `unit::special` (unit.rs absent from src), spec
section 6: consumes a maximal run of special/operator characters. -/
def unit_special (s : ParserSt) : URes Statement :=
  .ok (Statement.Special (String.mk (spanChars isSpecialCh s.rest).1))
    ⟨(spanChars isSpecialCh s.rest).2, s.taken + (spanChars isSpecialCh s.rest).1.length, s.pos⟩

/-- Modelled from the spec: `unit::string` (unit.rs absent from src), spec
section 6: consumes an opening quote through the matching closing quote,
or fails with a scanner-specific error when the line ends first. -/
def unit_string (s : ParserSt) : URes Statement :=
  match s.rest with
  | [] => .panic
  | _ :: r =>
    match (spanChars (fun c => !(c = '"' : Bool)) r).2 with
    | [] =>
      .err "unterminated string literal"
        ⟨[], s.taken + 1 + (spanChars (fun c => !(c = '"' : Bool)) r).1.length, s.pos⟩
    | _ :: r3 =>
      .ok (Statement.LitString (String.mk (spanChars (fun c => !(c = '"' : Bool)) r).1))
        ⟨r3, s.taken + 1 + (spanChars (fun c => !(c = '"' : Bool)) r).1.length + 1, s.pos⟩

/-- `Parser::parse_inner` from line.rs: consume the comment introducer,
require a single space, then discard the remainder of the line; otherwise
fail. -/
def parse_inner (s : ParserSt) : URes Statement :=
  match s.rest with
  | [] => .panic
  | _ :: r =>
    match r with
    | [] => .err "`inner` on the end of the line" ⟨[], s.taken + 1, s.pos⟩
    | c2 :: r2 =>
      if c2 = ' ' then .ok Statement.None ⟨[], s.taken + 2 + r2.length, s.pos⟩
      else .err "expected comment" ⟨r2, s.taken + 2, s.pos⟩

/-- Worker for `Parser::parse_whitespace` from line.rs: sums the widths of
leading whitespace characters (u8 addition, modelled wrapping); a newline
character is a `panic!`, modelled as `none`. -/
def pwAux : List Char → Nat → Position → Nat → Option (Nat × ParserSt)
  | [], tk, p, acc => some (acc, ⟨[], tk, p⟩)
  | c :: r, tk, p, acc =>
    match SymbolType.classify (some c) with
    | .Whitespace w => pwAux r (tk + 1) p ((acc + w) % 256)
    | .NewLine => none
    | _ => some (acc, ⟨c :: r, tk, p⟩)

/-- `Parser::parse_whitespace` from line.rs. -/
def parse_whitespace (s : ParserSt) (acc : Nat) : Option (Nat × ParserSt) :=
  pwAux s.rest s.taken s.pos acc

/-- Whether a statement is `Statement::None` (line.rs `matches!`). -/
def isNoneSt : Statement → Bool
  | Statement.None => true
  | _ => false

/-- The common tail of `Parser::parse_statement` from line.rs: read
`taken()` (cast to u8), stamp the span at the current position, advance the
position, and wrap a scanner-level error message into an `Error`. -/
def finishStmt : URes Statement → PRes ((Statement × Span) × ParserSt)
  | .panic => .panic
  | .ok st s' =>
    let size := s'.taken % 256
    .ok ((st, Span.new_p s'.pos size), ⟨s'.rest, 0, s'.pos.mov size⟩)
  | .err msg s' =>
    let size := s'.taken % 256
    .err (Error.new msg (Span.new_p s'.pos size))

/-- The three mutually recursive parser entry points, indexed by fuel. -/
structure PFuns where
  stmt : Char → ParserSt → PRes ((Statement × Span) × ParserSt)
  brkt : BracketType → ParserSt → PRes (Statement × ParserSt)
  loop : BracketType → ParserSt → List Sentence → List (Statement × Span) → Position →
    PRes (Statement × ParserSt)

/-- `Parser::parse_statement` from line.rs, parameterised by the
bracket-group parser: classify the peeked character and dispatch; a
newline or end of stream here is a `panic!`. -/
def mkStatement (brkt : BracketType → ParserSt → PRes (Statement × ParserSt))
    (c : Char) (s : ParserSt) : PRes ((Statement × Span) × ParserSt) :=
  match SymbolType.classify (some c) with
  | .NewLine => .panic
  | .EOS => .panic
  | .Dot => finishStmt (.err ("unexpected symbol ".push c) s)
  | .Comma => finishStmt (.err ("unexpected symbol ".push c) s)
  | .Other => finishStmt (.err ("unexpected symbol ".push c) s)
  | .Whitespace _ =>
    match parse_whitespace s 0 with
    | some (_, s') => finishStmt (.ok Statement.None s')
    | none => .panic
  | .Quote => finishStmt (unit_string s)
  | .Letter _ => finishStmt (unit_chain s)
  | .Digit _ => finishStmt (unit_int s)
  | .Special _ => finishStmt (unit_special s)
  | .Inner => finishStmt (parse_inner s)
  | .Bracket bt true =>
    match brkt bt s with
    | .ok (st, s') => finishStmt (.ok st s')
    | .err e => .err e
    | .panic => .panic
    | .oof => .oof
  | .Bracket _ false => finishStmt (.err "unexpected closing bracket" s)

/-- The head of `Parser::parse_bracket` from line.rs: consume the opening
bracket (`unwrap`), record the sentence start position, and enter the
bracket loop with empty `parts` and `sent`. -/
def mkBracket
    (loop : BracketType → ParserSt → List Sentence → List (Statement × Span) → Position →
      PRes (Statement × ParserSt))
    (t : BracketType) (s : ParserSt) : PRes (Statement × ParserSt) :=
  match s.rest with
  | [] => .panic
  | _ :: r => loop t ⟨r, s.taken + 1, s.pos⟩ [] [] s.pos

/-- One unfolding of the loop of `Parser::parse_bracket` from line.rs:
matching closer closes the group (pushing the in-progress sentence only if
non-empty); a mismatched closer or a comma after an empty part is an
error; a comma closes the in-progress sentence (with the doubled offset
subtraction of the source, Nat subtraction truncated); anything else is
dispatched as a statement, discarding `Statement::None`. -/
def mkLoop (stmt : Char → ParserSt → PRes ((Statement × Span) × ParserSt))
    (loopPrev : BracketType → ParserSt → List Sentence → List (Statement × Span) → Position →
      PRes (Statement × ParserSt))
    (t : BracketType) (s : ParserSt) (parts : List Sentence)
    (sent : List (Statement × Span)) (sent_pos : Position) : PRes (Statement × ParserSt) :=
  match SymbolType.classify s.rest.head? with
  | .Bracket ct false =>
    if t = ct then
      if sent.isEmpty then
        .ok (Statement.Bracket (t, parts), ⟨s.rest.tail, s.taken + 1, s.pos⟩)
      else
        .ok (Statement.Bracket (t, parts ++
          [Sentence.mk sent (Span.new_p sent_pos (s.pos.offset - sent_pos.offset))]),
          ⟨s.rest.tail, s.taken + 1, s.pos⟩)
    else
      .err (Error.new "wrong closing bracket"
        (Span.new_p sent_pos (s.pos.offset - sent_pos.offset)))
  | .Comma =>
    if sent.isEmpty then
      .err (Error.new "empty last part"
        (Span.new_p sent_pos (s.pos.offset - sent_pos.offset)))
    else
      loopPrev t ⟨s.rest.tail, s.taken + 1, s.pos⟩ (parts ++
        [Sentence.mk sent (Span.new_p sent_pos (s.pos.offset - sent_pos.offset - sent_pos.offset))])
        [] s.pos
  | _ =>
    match s.rest with
    | [] => .panic
    | c :: _ =>
      match stmt c s with
      | .ok (nx, s') =>
        loopPrev t s' parts (if isNoneSt nx.1 then sent else sent ++ [nx]) sent_pos
      | .err e => .err e
      | .panic => .panic
      | .oof => .oof

/-- The fuel-indexed tower of the mutually recursive parser functions; at
fuel 0 the bracket loop reports fuel exhaustion. -/
def parserF : Nat → PFuns
  | 0 =>
    let l := fun _ _ _ _ _ => PRes.oof
    ⟨mkStatement (mkBracket l), mkBracket l, l⟩
  | n + 1 =>
    let p := parserF n
    let l := mkLoop p.stmt p.loop
    ⟨mkStatement (mkBracket l), mkBracket l, l⟩

/-- `Parser::parse_statement` from line.rs at a given fuel. -/
def parse_statement (fuel : Nat) : Char → ParserSt → PRes ((Statement × Span) × ParserSt) :=
  (parserF fuel).stmt

/-- `Parser::parse_bracket` from line.rs at a given fuel. -/
def parse_bracket (fuel : Nat) : BracketType → ParserSt → PRes (Statement × ParserSt) :=
  (parserF fuel).brkt

/-- The loop of `Parser::parse_bracket` from line.rs at a given fuel. -/
def bracket_loop (fuel : Nat) :
    BracketType → ParserSt → List Sentence → List (Statement × Span) → Position →
      PRes (Statement × ParserSt) :=
  (parserF fuel).loop

/-- Whether a parse result is a successfully parsed line with content. -/
def isOkSomeRes : PRes (Option (Nat × Line)) → Bool
  | .ok (some _) => true
  | _ => false

/-- The head/last span invariant of one sentence, as stated by the spec:
an empty sequence is trivially fine, otherwise the overall span must begin
at the first element's span begin and end at the last element's span
end. -/
def headLastOkB (stmts : List (Statement × Span)) (sp : Span) : Bool :=
  match stmts with
  | [] => true
  | st0 :: tl =>
    decide (sp.begin = st0.2.begin) && decide (sp.endPos = (tl.getLastD st0).2.endPos)

/-- The sentences directly contained in one parsed element (the parts of a
bracket statement). -/
def subSentences (p : Statement × Span) : List Sentence :=
  match p.1 with
  | Statement.Bracket pr => pr.2
  | _ => []

/-- Depth-bounded check that every sentence in the list, and recursively
every sentence nested inside their bracket statements, satisfies the
head/last span invariant; optimistically `true` when the depth bound runs
out, so a `false` result witnesses a genuine violation. -/
def senListOkF : Nat → List Sentence → Bool
  | 0, _ => true
  | f + 1, sens =>
    sens.all (fun sen => headLastOkB sen.statements sen.span) &&
      senListOkF f (sens.flatMap (fun sen => sen.statements.flatMap subSentences))

/-- All sentences produced by a parse (the top-level sentence and every
nested bracket part, up to the given depth) satisfy the head/last span
invariant; vacuously true when no line is produced. -/
def lineSentencesOkF (fuel : Nat) : PRes (Option (Nat × Line)) → Bool
  | .ok (some (_, l)) => senListOkF fuel [l.sentence]
  | _ => true

theorem bracket_loop_zero : bracket_loop 0 = fun _ _ _ _ _ => PRes.oof := rfl

theorem bracket_loop_succ (n : Nat) :
    bracket_loop (n + 1) = mkLoop (parse_statement n) (bracket_loop n) := rfl

theorem parse_bracket_eq (n : Nat) : parse_bracket n = mkBracket (bracket_loop n) := by
  cases n <;> rfl

theorem parse_statement_eq (n : Nat) :
    parse_statement n = mkStatement (mkBracket (bracket_loop n)) := by
  cases n <;> rfl

/-- The top-level dispatch loop of `Parser::parse` from line.rs: while a
next character exists, parse a statement and collect it unless it is
`Statement::None`. -/
def top_loop : Nat → ParserSt → List (Statement × Span) → PRes (List (Statement × Span) × ParserSt)
  | 0, _, _ => .oof
  | f + 1, s, acc =>
    match s.rest with
    | [] => .ok (acc, s)
    | c :: _ =>
      match parse_statement (f + 1) c s with
      | .ok (nx, s') => top_loop f s' (if isNoneSt nx.1 then acc else acc ++ [nx])
      | .err e => .err e
      | .panic => .panic
      | .oof => .oof

/-- `Parser::parse` from line.rs: measure the indentation, reject offsets
not divisible by 4, run the dispatch loop, and wrap the collected
statements into a `Line` whose span runs from the first statement's begin
to the last statement's end.  Fuel for the dispatch loop is the number of
remaining characters plus one, proven sufficient. -/
def parse (line : String) (line_num : Nat) : PRes (Option (Nat × Line)) :=
  let s0 : ParserSt := ⟨line.toList, 0, Position.new line_num 0⟩
  match parse_whitespace s0 0 with
  | none => .panic
  | some (offset_s, s1) =>
    let shift := s1.taken % 256
    let offset := offset_s / 4
    if offset * 4 ≠ offset_s then
      .err (Error.new "offset is not divisible by 4" (Span.new_p s1.pos shift))
    else
      let s3 : ParserSt := ⟨s1.rest, 0, s1.pos.mov shift⟩
      match top_loop (s3.rest.length + 1) s3 [] with
      | .ok (statements, _) =>
        match statements with
        | [] => .ok none
        | st0 :: tl =>
          .ok (some (offset,
            Line.new (Sentence.mk (st0 :: tl)
              (Span.new st0.2.begin ((tl.getLastD st0).2.endPos)))))
      | .err e => .err e
      | .panic => .panic
      | .oof => .oof

theorem classify_hash : SymbolType.classify (some '#') = SymbolType.Inner := by decide

theorem classify_ws_width (c : Char) (h : isWsCh c = true) :
    SymbolType.classify (some c) = SymbolType.Whitespace 1 := by
  unfold isWsCh at h
  simp only [Bool.or_eq_true, decide_eq_true_eq] at h
  rcases h with h | h <;> subst h <;> decide

theorem pwAux_ws_append (l : List Char) : ∀ (t : List Char) (tk : Nat) (p : Position) (acc : Nat),
    (∀ c ∈ l, isWsCh c = true) → acc % 256 = acc →
    pwAux (l ++ t) tk p acc = pwAux t (tk + l.length) p ((acc + l.length) % 256) := by
  induction l with
  | nil =>
    intro t tk p acc _ hacc
    simp [hacc]
  | cons c r ih =>
    intro t tk p acc hw hacc
    have hc := classify_ws_width c (hw c (by simp))
    have step : pwAux (c :: (r ++ t)) tk p acc = pwAux (r ++ t) (tk + 1) p ((acc + 1) % 256) := by
      simp [pwAux, hc]
    show pwAux (c :: (r ++ t)) tk p acc = _
    rw [step, ih t (tk + 1) p ((acc + 1) % 256) (fun x hx => hw x (by simp [hx])) (by omega)]
    simp only [List.length_cons]
    congr 1
    · omega
    · omega

theorem stmt_comment_consumes (f : Nat) (s : ParserSt) (r : List Char)
    (hr : s.rest = '#' :: ' ' :: r) :
    parse_statement f '#' s =
      PRes.ok ((Statement.None, Span.new_p s.pos ((s.taken + 2 + r.length) % 256)),
        ⟨[], 0, s.pos.mov ((s.taken + 2 + r.length) % 256)⟩) := by
  rw [parse_statement_eq]
  simp [mkStatement, classify_hash, parse_inner, hr, finishStmt]

/-- C3: for the newline-free line "(a", whose opening bracket is never
closed, `parse` does not return a `Result` value at all: the bracket loop
reaches the end of the stream and panics via `unwrap` on `None`. -/
theorem claim_C3 : parse "(a" 1 = PRes.panic := rfl

/-- C1 counterexample: on the line "(a, b,)", whose bracket group ends
with a comma immediately followed by the matching closing bracket, `parse`
returns `Ok` with a parsed line, not the "empty last part" error the claim
requires. -/
theorem claim_C1_counterexample :
    PRes.errMsg (parse "(a, b,)" 1) = none ∧ isOkSomeRes (parse "(a, b,)" 1) = true :=
  ⟨rfl, rfl⟩

/-- C1 amended: when the bracket loop reaches the matching closing bracket
while the in-progress sentence is empty (as happens right after a trailing
comma), it consumes the closer and returns `Ok` with the parts collected so
far — a trailing comma immediately before the matching closing bracket is
accepted, not an error. -/
theorem claim_C1 (f : Nat) (t : BracketType) (s : ParserSt) (parts : List Sentence)
    (sent_pos : Position)
    (h : SymbolType.classify s.rest.head? = SymbolType.Bracket t false) :
    bracket_loop (f + 1) t s parts [] sent_pos =
      PRes.ok (Statement.Bracket (t, parts), ⟨s.rest.tail, s.taken + 1, s.pos⟩) := by
  rw [bracket_loop_succ]
  simp [mkLoop, h]

theorem claim_C1_witness :
    SymbolType.classify (([')'] : List Char).head?) = SymbolType.Bracket BracketType.Round false ∧
      bracket_loop 1 BracketType.Round ⟨[')'], 0, Position.new 1 5⟩ [] [] (Position.new 1 5) =
        PRes.ok (Statement.Bracket (BracketType.Round, []), ⟨[], 1, Position.new 1 5⟩) :=
  ⟨by decide, claim_C1 0 BracketType.Round ⟨[')'], 0, Position.new 1 5⟩ [] (Position.new 1 5)
    (by decide)⟩

/-- C6: when the bracket loop reaches a comma while the in-progress
sentence is empty — a comma immediately after the opening bracket or after
another comma, with only discarded whitespace/comment between — it returns
the error "empty last part". -/
theorem claim_C6 (f : Nat) (t : BracketType) (s : ParserSt) (parts : List Sentence)
    (sent_pos : Position)
    (h : SymbolType.classify s.rest.head? = SymbolType.Comma) :
    bracket_loop (f + 1) t s parts [] sent_pos =
      PRes.err (Error.new "empty last part"
        (Span.new_p sent_pos (s.pos.offset - sent_pos.offset))) := by
  rw [bracket_loop_succ]
  simp [mkLoop, h]

theorem claim_C6_witness :
    SymbolType.classify (([','] : List Char).head?) = SymbolType.Comma ∧
      bracket_loop 1 BracketType.Round ⟨[','], 0, Position.new 1 1⟩ [] [] (Position.new 1 1) =
        PRes.err (Error.new "empty last part"
          (Span.new_p (Position.new 1 1) 0)) :=
  ⟨by decide, claim_C6 0 BracketType.Round ⟨[','], 0, Position.new 1 1⟩ [] (Position.new 1 1)
    (by decide)⟩

/-- C7: when the bracket loop reaches a closing bracket of a different
kind than the currently open one, it returns the error "wrong closing
bracket" whose span runs from the position where the in-progress sentence
began up to the current position. -/
theorem claim_C7 (f : Nat) (t ct : BracketType) (s : ParserSt) (parts : List Sentence)
    (sent : List (Statement × Span)) (sent_pos : Position)
    (h : SymbolType.classify s.rest.head? = SymbolType.Bracket ct false) (hne : t ≠ ct) :
    bracket_loop (f + 1) t s parts sent sent_pos =
      PRes.err (Error.new "wrong closing bracket"
        (Span.new_p sent_pos (s.pos.offset - sent_pos.offset))) ∧
    (sent_pos.offset ≤ s.pos.offset →
      (Span.new_p sent_pos (s.pos.offset - sent_pos.offset)).endPos.offset = s.pos.offset) := by
  constructor
  · rw [bracket_loop_succ]
    simp [mkLoop, h, hne]
  · intro hle
    simp [Span.new_p, Position.mov]
    omega

theorem claim_C7_witness :
    SymbolType.classify (([']'] : List Char).head?) = SymbolType.Bracket BracketType.Square false ∧
      BracketType.Round ≠ BracketType.Square ∧
      bracket_loop 1 BracketType.Round ⟨[']'], 0, Position.new 1 2⟩ [] [] (Position.new 1 0) =
        PRes.err (Error.new "wrong closing bracket" (Span.new_p (Position.new 1 0) 2)) :=
  ⟨by decide, by decide,
    (claim_C7 0 BracketType.Round BracketType.Square ⟨[']'], 0, Position.new 1 2⟩ [] []
      (Position.new 1 0) (by decide) (by decide)).1⟩

/-- C8: the statement dispatch, given a character classified as Dot, Comma
or Other, returns the error "unexpected symbol" naming that character; and
given a closing bracket with no open bracket group at this level, returns
the error "unexpected closing bracket". -/
theorem claim_C8 (f : Nat) (c : Char) (s : ParserSt) :
    ((SymbolType.classify (some c) = SymbolType.Dot ∨
        SymbolType.classify (some c) = SymbolType.Comma ∨
        SymbolType.classify (some c) = SymbolType.Other) →
      parse_statement f c s =
        PRes.err (Error.new ("unexpected symbol ".push c)
          (Span.new_p s.pos (s.taken % 256)))) ∧
    (∀ k, SymbolType.classify (some c) = SymbolType.Bracket k false →
      parse_statement f c s =
        PRes.err (Error.new "unexpected closing bracket"
          (Span.new_p s.pos (s.taken % 256)))) := by
  constructor
  · rintro (h | h | h) <;>
      · rw [parse_statement_eq]
        simp [mkStatement, h, finishStmt]
  · intro k h
    rw [parse_statement_eq]
    simp [mkStatement, h, finishStmt]

theorem claim_C8_witness :
    SymbolType.classify (some '.') = SymbolType.Dot ∧
      parse_statement 1 '.' ⟨['.'], 0, Position.new 1 0⟩ =
        PRes.err (Error.new ("unexpected symbol ".push '.') (Span.new_p (Position.new 1 0) 0)) ∧
      SymbolType.classify (some ')') = SymbolType.Bracket BracketType.Round false ∧
      parse_statement 1 ')' ⟨[')'], 0, Position.new 1 1⟩ =
        PRes.err (Error.new "unexpected closing bracket" (Span.new_p (Position.new 1 1) 0)) :=
  ⟨by decide,
    (claim_C8 1 '.' ⟨['.'], 0, Position.new 1 0⟩).1 (Or.inl (by decide)),
    by decide,
    (claim_C8 1 ')' ⟨[')'], 0, Position.new 1 1⟩).2 BracketType.Round (by decide)⟩

/-- C9: after the comment introducer is consumed, an immediately following
single space makes the parser consume every remaining character of the
line and yield `Statement::None`; any other following character yields the
error "expected comment"; an introducer that is the last character of the
line yields the error "`inner` on the end of the line". -/
theorem claim_C9 (f : Nat) (s : ParserSt) :
    (∀ r, s.rest = '#' :: ' ' :: r →
      parse_statement f '#' s =
        PRes.ok ((Statement.None, Span.new_p s.pos ((s.taken + 2 + r.length) % 256)),
          ⟨[], 0, s.pos.mov ((s.taken + 2 + r.length) % 256)⟩)) ∧
    (∀ d r, s.rest = '#' :: d :: r → d ≠ ' ' →
      parse_statement f '#' s =
        PRes.err (Error.new "expected comment"
          (Span.new_p s.pos ((s.taken + 2) % 256)))) ∧
    (s.rest = ['#'] →
      parse_statement f '#' s =
        PRes.err (Error.new "`inner` on the end of the line"
          (Span.new_p s.pos ((s.taken + 1) % 256)))) := by
  refine ⟨?_, ?_, ?_⟩
  · intro r hr
    exact stmt_comment_consumes f s r hr
  · intro d r hr hd
    rw [parse_statement_eq]
    simp [mkStatement, classify_hash, parse_inner, hr, hd, finishStmt]
  · intro hr
    rw [parse_statement_eq]
    simp [mkStatement, classify_hash, parse_inner, hr, finishStmt]

theorem claim_C9_witness :
    ((⟨['#', ' ', 'z', '('], 0, Position.new 1 0⟩ : ParserSt).rest = '#' :: ' ' :: ['z', '(']) ∧
      parse_statement 1 '#' ⟨['#', ' ', 'z', '('], 0, Position.new 1 0⟩ =
        PRes.ok ((Statement.None, Span.new_p (Position.new 1 0) 4),
          ⟨[], 0, Position.mov (Position.new 1 0) 4⟩) ∧
      parse_statement 1 '#' ⟨['#', 'q'], 0, Position.new 1 0⟩ =
        PRes.err (Error.new "expected comment" (Span.new_p (Position.new 1 0) 2)) ∧
      parse_statement 1 '#' ⟨['#'], 0, Position.new 1 0⟩ =
        PRes.err (Error.new "`inner` on the end of the line"
          (Span.new_p (Position.new 1 0) 1)) :=
  ⟨rfl,
    (claim_C9 1 ⟨['#', ' ', 'z', '('], 0, Position.new 1 0⟩).1 ['z', '('] rfl,
    (claim_C9 1 ⟨['#', 'q'], 0, Position.new 1 0⟩).2.1 'q' [] rfl (by decide),
    (claim_C9 1 ⟨['#'], 0, Position.new 1 0⟩).2.2 rfl⟩

/-- C2 counterexample: on the line "( a)" the parse succeeds, but the
bracket part's sentence has span begin at offset 0 (the opening bracket)
while its first element's span begins at offset 2, so not every produced
sentence starts at its first element's span begin. -/
theorem claim_C2_counterexample : lineSentencesOkF 3 (parse "( a)" 1) = false := rfl

/-- C2 amended: the top-level sentence of every successfully parsed line
does satisfy the invariant — its span begins at the first statement's span
begin and ends at the last statement's span end; sentences of bracket
parts need not (their spans start at the opener/comma position). -/
theorem claim_C2 (line : String) (num ind : Nat) (l : Line)
    (h : parse line num = PRes.ok (some (ind, l))) :
    ∃ st0 tl, l.sentence.statements = st0 :: tl ∧
      l.sentence.span.begin = st0.2.begin ∧
      l.sentence.span.endPos = (tl.getLastD st0).2.endPos := by
  simp only [parse] at h
  split at h
  · exact absurd h (by simp)
  · split at h
    · exact absurd h (by simp)
    · split at h
      · split at h
        · exact absurd h (by simp)
        · rename_i st0 tl htop
          simp only [PRes.ok.injEq, Option.some.injEq, Prod.mk.injEq] at h
          refine ⟨st0, tl, ?_, ?_, ?_⟩ <;>
            simp [← h.2, Line.new, Sentence.statements, Sentence.span, Span.new]
      · exact absurd h (by simp)
      · exact absurd h (by simp)
      · exact absurd h (by simp)

theorem claim_C2_witness :
    parse "a" 1 = PRes.ok (some (0,
        Line.new (Sentence.mk [(Statement.Chain "a", Span.new (Position.new 1 0) (Position.new 1 1))]
          (Span.new (Position.new 1 0) (Position.new 1 1))))) ∧
      (∃ st0 tl,
        (Line.new (Sentence.mk [(Statement.Chain "a", Span.new (Position.new 1 0) (Position.new 1 1))]
          (Span.new (Position.new 1 0) (Position.new 1 1)))).sentence.statements = st0 :: tl ∧
        (Line.new (Sentence.mk [(Statement.Chain "a", Span.new (Position.new 1 0) (Position.new 1 1))]
          (Span.new (Position.new 1 0) (Position.new 1 1)))).sentence.span.begin = st0.2.begin ∧
        (Line.new (Sentence.mk [(Statement.Chain "a", Span.new (Position.new 1 0) (Position.new 1 1))]
          (Span.new (Position.new 1 0) (Position.new 1 1)))).sentence.span.endPos =
          (tl.getLastD st0).2.endPos) :=
  ⟨rfl, claim_C2 "a" 1 0 _ rfl⟩

theorem pwAux_pos (l : List Char) : ∀ (tk : Nat) (p : Position) (acc w : Nat) (st : ParserSt),
    pwAux l tk p acc = some (w, st) → st.pos = p := by
  induction l with
  | nil =>
    intro tk p acc w st h
    simp only [pwAux, Option.some.injEq, Prod.mk.injEq] at h
    rw [← h.2]
  | cons c r ih =>
    intro tk p acc w st h
    unfold pwAux at h
    split at h
    · exact ih _ _ _ _ _ h
    · exact absurd h (by simp)
    · simp only [Option.some.injEq, Prod.mk.injEq] at h
      rw [← h.2]

/-- C4: if the leading-whitespace scan yields a width not divisible by 4,
`parse` fails with the error "offset is not divisible by 4" spanning
exactly the leading-whitespace characters from the start of the line; and
whenever `parse` succeeds with content, the returned indentation level is
the measured width divided by 4. -/
theorem claim_C4 (line : String) (num : Nat) :
    (∀ w s1, parse_whitespace ⟨line.toList, 0, Position.new num 0⟩ 0 = some (w, s1) →
      w % 4 ≠ 0 →
      parse line num = PRes.err (Error.new "offset is not divisible by 4"
        (Span.new_p (Position.new num 0) (s1.taken % 256)))) ∧
    (∀ w s1 ind l, parse_whitespace ⟨line.toList, 0, Position.new num 0⟩ 0 = some (w, s1) →
      parse line num = PRes.ok (some (ind, l)) → ind = w / 4) := by
  constructor
  · intro w s1 hw hmod
    have hpos : s1.pos = Position.new num 0 := pwAux_pos _ _ _ _ _ _ hw
    simp only [parse]
    rw [hw]
    simp only
    rw [if_pos (by omega : w / 4 * 4 ≠ w), hpos]
  · intro w s1 ind l hw h
    simp only [parse] at h
    rw [hw] at h
    simp only at h
    split at h
    · exact absurd h (by simp)
    · split at h
      · split at h
        · exact absurd h (by simp)
        · simp only [PRes.ok.injEq, Option.some.injEq, Prod.mk.injEq] at h
          exact h.1.symm
      · exact absurd h (by simp)
      · exact absurd h (by simp)
      · exact absurd h (by simp)

theorem claim_C4_witness :
    parse_whitespace ⟨("   x" : String).toList, 0, Position.new 1 0⟩ 0 =
        some (3, ⟨['x'], 3, Position.new 1 0⟩) ∧
      (3 : Nat) % 4 ≠ 0 ∧
      parse "   x" 1 = PRes.err (Error.new "offset is not divisible by 4"
        (Span.new_p (Position.new 1 0) 3)) ∧
      parse_whitespace ⟨("    x" : String).toList, 0, Position.new 1 0⟩ 0 =
        some (4, ⟨['x'], 4, Position.new 1 0⟩) ∧
      parse "    x" 1 = PRes.ok (some (1,
        Line.new (Sentence.mk [(Statement.Chain "x", Span.new (Position.new 1 4) (Position.new 1 5))]
          (Span.new (Position.new 1 4) (Position.new 1 5))))) ∧
      (1 : Nat) = 4 / 4 :=
  ⟨rfl, by decide,
    (claim_C4 "   x" 1).1 3 ⟨['x'], 3, Position.new 1 0⟩ rfl (by decide),
    rfl, rfl,
    (claim_C4 "    x" 1).2 4 ⟨['x'], 4, Position.new 1 0⟩ 1 _ rfl rfl⟩

/-- C5: a line consisting only of whitespace characters whose total width
is a multiple of 4, optionally followed by a well-formed comment (the
introducer plus a single space and arbitrary trailing characters), parses
to `Ok(None)`: no `Line` value is produced. -/
theorem claim_C5 (l r : List Char) (num : Nat)
    (hw : ∀ c ∈ l, isWsCh c = true) (hm : l.length % 4 = 0) :
    parse (String.mk l) num = PRes.ok none ∧
    parse (String.mk (l ++ '#' :: ' ' :: r)) num = PRes.ok none := by
  constructor
  · have hpw : parse_whitespace ⟨(String.mk l).toList, 0, Position.new num 0⟩ 0 =
        some (l.length % 256, ⟨[], l.length, Position.new num 0⟩) := by
      show pwAux (String.mk l).toList 0 (Position.new num 0) 0 = _
      have h0 : (String.mk l).toList = l := rfl
      rw [h0, ← List.append_nil l,
        pwAux_ws_append l [] 0 (Position.new num 0) 0 hw (by simp)]
      simp [pwAux]
    simp only [parse]
    rw [hpw]
    simp only
    rw [if_neg (by omega : ¬(l.length % 256 / 4 * 4 ≠ l.length % 256))]
    simp [top_loop]
  · have hpw : parse_whitespace ⟨(String.mk (l ++ '#' :: ' ' :: r)).toList, 0,
        Position.new num 0⟩ 0 =
        some (l.length % 256, ⟨'#' :: ' ' :: r, l.length, Position.new num 0⟩) := by
      show pwAux (String.mk (l ++ '#' :: ' ' :: r)).toList 0 (Position.new num 0) 0 = _
      have h0 : (String.mk (l ++ '#' :: ' ' :: r)).toList = l ++ '#' :: ' ' :: r := rfl
      rw [h0, pwAux_ws_append l ('#' :: ' ' :: r) 0 (Position.new num 0) 0 hw (by simp)]
      simp [pwAux, classify_hash]
    simp only [parse]
    rw [hpw]
    simp only
    rw [if_neg (by omega : ¬(l.length % 256 / 4 * 4 ≠ l.length % 256))]
    simp [top_loop, stmt_comment_consumes, isNoneSt]

theorem claim_C5_witness :
    (∀ c ∈ ([' ', ' ', ' ', ' '] : List Char), isWsCh c = true) ∧
      ([' ', ' ', ' ', ' '] : List Char).length % 4 = 0 ∧
      parse (String.mk [' ', ' ', ' ', ' ']) 2 = PRes.ok none ∧
      parse (String.mk ([' ', ' ', ' ', ' '] ++ '#' :: ' ' :: ['h', 'i'])) 2 = PRes.ok none :=
  ⟨by decide, by decide,
    (claim_C5 [' ', ' ', ' ', ' '] ['h', 'i'] 2 (by decide) (by decide)).1,
    (claim_C5 [' ', ' ', ' ', ' '] ['h', 'i'] 2 (by decide) (by decide)).2⟩

theorem head?_cons (l : List Char) (c : Char) (h : l.head? = some c) : l = c :: l.tail := by
  cases l <;> simp_all

theorem spanChars_length (p : Char → Bool) (l : List Char) :
    (spanChars p l).1.length + (spanChars p l).2.length = l.length := by
  induction l with
  | nil => simp [spanChars]
  | cons c r ih =>
    simp only [spanChars]
    split
    · simp only [List.length_cons]
      omega
    · simp

theorem spanChars_snd_le (p : Char → Bool) (l : List Char) :
    (spanChars p l).2.length ≤ l.length := by
  have := spanChars_length p l
  omega

theorem spanChars_pos (p : Char → Bool) (c : Char) (r : List Char) (h : p c = true) :
    spanChars p (c :: r) = (c :: (spanChars p r).1, (spanChars p r).2) := by
  simp [spanChars, h]

theorem pwAux_rest_le (l : List Char) : ∀ (tk : Nat) (p : Position) (acc w : Nat) (st : ParserSt),
    pwAux l tk p acc = some (w, st) → st.rest.length ≤ l.length := by
  induction l with
  | nil =>
    intro tk p acc w st h
    simp only [pwAux, Option.some.injEq, Prod.mk.injEq] at h
    rw [← h.2]
  | cons c r ih =>
    intro tk p acc w st h
    unfold pwAux at h
    split at h
    · exact le_trans (ih _ _ _ _ _ h) (by simp)
    · exact absurd h (by simp)
    · simp only [Option.some.injEq, Prod.mk.injEq] at h
      rw [← h.2]

theorem finishStmt_ok_rest (u : URes Statement) (x : Statement × Span) (s' : ParserSt)
    (h : finishStmt u = PRes.ok (x, s')) :
    ∃ st s1, u = URes.ok st s1 ∧ s'.rest = s1.rest := by
  cases u with
  | ok st s1 =>
    refine ⟨st, s1, rfl, ?_⟩
    simp only [finishStmt, PRes.ok.injEq, Prod.mk.injEq] at h
    rw [← h.2]
  | err m s1 => exact absurd h (by simp [finishStmt])
  | panic => exact absurd h (by simp [finishStmt])

theorem classify_letter_chain (c x : Char) (h : SymbolType.classify (some c) = SymbolType.Letter x) :
    isChainCh c = true := by
  simp [isChainCh, h]

theorem classify_digit_digitCh (c : Char) (d : Nat)
    (h : SymbolType.classify (some c) = SymbolType.Digit d) : isDigitCh c = true := by
  simp [isDigitCh, h]

theorem classify_special_specialCh (c x : Char)
    (h : SymbolType.classify (some c) = SymbolType.Special x) : isSpecialCh c = true := by
  simp [isSpecialCh, h]

theorem finishStmt_ne_oof (u : URes Statement) : finishStmt u ≠ PRes.oof := by
  cases u <;> simp [finishStmt]

theorem stmt_no_oof (f : Nat)
    (hL : ∀ t s parts sent sent_pos, s.rest.length + 1 ≤ f →
      bracket_loop f t s parts sent sent_pos ≠ PRes.oof)
    (c : Char) (s : ParserSt) (hc : s.rest.head? = some c) (hf : s.rest.length ≤ f) :
    parse_statement f c s ≠ PRes.oof := by
  obtain ⟨tl, hrest⟩ : ∃ tl, s.rest = c :: tl := ⟨_, head?_cons _ _ hc⟩
  have hlen : s.rest.length = tl.length + 1 := by rw [hrest]; simp
  rw [parse_statement_eq]
  unfold mkStatement
  intro h
  split at h
  · exact absurd h (by simp)
  · exact absurd h (by simp)
  · exact absurd h (finishStmt_ne_oof _)
  · exact absurd h (finishStmt_ne_oof _)
  · exact absurd h (finishStmt_ne_oof _)
  · split at h
    · exact absurd h (finishStmt_ne_oof _)
    · exact absurd h (by simp)
  · exact absurd h (finishStmt_ne_oof _)
  · exact absurd h (finishStmt_ne_oof _)
  · exact absurd h (finishStmt_ne_oof _)
  · exact absurd h (finishStmt_ne_oof _)
  · exact absurd h (finishStmt_ne_oof _)
  · -- opening bracket: the loop is started on the tail, with enough fuel
    rename_i bt hcl
    have hmkb : mkBracket (bracket_loop f) bt s =
        bracket_loop f bt ⟨tl, s.taken + 1, s.pos⟩ [] [] s.pos := by
      unfold mkBracket
      rw [hrest]
    rw [hmkb] at h
    rcases hb : bracket_loop f bt ⟨tl, s.taken + 1, s.pos⟩ [] [] s.pos with a | e | _ | _
    · rcases a with ⟨st, s1⟩
      rw [hb] at h
      exact absurd h (finishStmt_ne_oof _)
    · rw [hb] at h
      exact absurd h (by simp)
    · rw [hb] at h
      exact absurd h (by simp)
    · exact absurd hb (hL _ _ _ _ _ (by simp; omega))
  · exact absurd h (finishStmt_ne_oof _)

theorem stmt_consume (f : Nat)
    (hLc : ∀ t s parts sent sent_pos st s',
      bracket_loop f t s parts sent sent_pos = PRes.ok (st, s') →
        s'.rest.length ≤ s.rest.length)
    (c : Char) (s : ParserSt) (x : Statement × Span) (s' : ParserSt)
    (hc : s.rest.head? = some c)
    (h : parse_statement f c s = PRes.ok (x, s')) :
    s'.rest.length < s.rest.length := by
  obtain ⟨tl, hrest⟩ : ∃ tl, s.rest = c :: tl := ⟨_, head?_cons _ _ hc⟩
  have hlen : s.rest.length = tl.length + 1 := by rw [hrest]; simp
  rw [parse_statement_eq] at h
  unfold mkStatement at h
  split at h
  · exact absurd h (by simp)
  · exact absurd h (by simp)
  · exact absurd h (by simp [finishStmt])
  · exact absurd h (by simp [finishStmt])
  · exact absurd h (by simp [finishStmt])
  · -- whitespace: parse_whitespace consumes at least the peeked character
    rename_i w hcl
    rcases hpw : parse_whitespace s 0 with _ | ⟨w2, s1⟩
    · rw [hpw] at h
      exact absurd h (by simp)
    · rw [hpw] at h
      obtain ⟨st, s1', hu, hr⟩ := finishStmt_ok_rest _ _ _ h
      cases hu
      unfold parse_whitespace at hpw
      rw [hrest] at hpw
      simp only [pwAux, hcl] at hpw
      have := pwAux_rest_le _ _ _ _ _ _ hpw
      rw [hr]
      omega
  · -- quote: the string scanner consumes the quote and at least the closer
    obtain ⟨st, s1, hu, hr⟩ := finishStmt_ok_rest _ _ _ h
    simp only [unit_string, hrest] at hu
    have hsplit := spanChars_length (fun ch => !(ch = '"' : Bool)) tl
    rcases hsc : (spanChars (fun ch => !(ch = '"' : Bool)) tl).2 with _ | ⟨a, r3⟩
    · rw [hsc] at hu
      exact absurd hu (by simp)
    · rw [hsc] at hu
      simp only [URes.ok.injEq] at hu
      rw [hr, ← hu.2]
      rw [hsc] at hsplit
      simp only [List.length_cons] at hsplit
      simp only
      omega
  · -- letter: the identifier-chain scanner consumes the peeked character
    rename_i lc hcl
    obtain ⟨st, s1, hu, hr⟩ := finishStmt_ok_rest _ _ _ h
    unfold unit_chain at hu
    rw [hrest, spanChars_pos isChainCh c tl (classify_letter_chain c lc hcl)] at hu
    simp only [URes.ok.injEq] at hu
    rw [hr, ← hu.2]
    have := spanChars_snd_le isChainCh tl
    simp only
    omega
  · -- digit
    rename_i d hcl
    obtain ⟨st, s1, hu, hr⟩ := finishStmt_ok_rest _ _ _ h
    unfold unit_int at hu
    rw [hrest, spanChars_pos isDigitCh c tl (classify_digit_digitCh c d hcl)] at hu
    simp only [URes.ok.injEq] at hu
    rw [hr, ← hu.2]
    have := spanChars_snd_le isDigitCh tl
    simp only
    omega
  · -- special
    rename_i sc hcl
    obtain ⟨st, s1, hu, hr⟩ := finishStmt_ok_rest _ _ _ h
    unfold unit_special at hu
    rw [hrest, spanChars_pos isSpecialCh c tl (classify_special_specialCh c sc hcl)] at hu
    simp only [URes.ok.injEq] at hu
    rw [hr, ← hu.2]
    have := spanChars_snd_le isSpecialCh tl
    simp only
    omega
  · -- inner: the comment branch consumes the whole line
    obtain ⟨st, s1, hu, hr⟩ := finishStmt_ok_rest _ _ _ h
    rcases tl with _ | ⟨c2, r2⟩
    · simp only [parse_inner, hrest] at hu
      exact absurd hu (by simp)
    · simp only [parse_inner, hrest] at hu
      split at hu
      · simp only [URes.ok.injEq] at hu
        rw [hr, ← hu.2]
        simp only [List.length_nil]
        omega
      · exact absurd hu (by simp)
  · -- opening bracket: the opener is consumed, the loop does not grow the rest
    rename_i bt hcl
    have hmkb : mkBracket (bracket_loop f) bt s =
        bracket_loop f bt ⟨tl, s.taken + 1, s.pos⟩ [] [] s.pos := by
      unfold mkBracket
      rw [hrest]
    rw [hmkb] at h
    rcases hb : bracket_loop f bt ⟨tl, s.taken + 1, s.pos⟩ [] [] s.pos with a | e | _ | _
    · rcases a with ⟨st, s1⟩
      rw [hb] at h
      obtain ⟨st2, s2, hu, hr⟩ := finishStmt_ok_rest _ _ _ h
      cases hu
      have := hLc _ _ _ _ _ _ _ hb
      rw [hr]
      simp only at this
      omega
    · rw [hb] at h
      exact absurd h (by simp)
    · rw [hb] at h
      exact absurd h (by simp)
    · rw [hb] at h
      exact absurd h (by simp)
  · exact absurd h (by simp [finishStmt])

theorem loop_fuel (f : Nat) :
    (∀ t s parts sent sent_pos, s.rest.length + 1 ≤ f →
      bracket_loop f t s parts sent sent_pos ≠ PRes.oof) ∧
    (∀ t s parts sent sent_pos st s',
      bracket_loop f t s parts sent sent_pos = PRes.ok (st, s') →
        s'.rest.length ≤ s.rest.length) := by
  induction f with
  | zero =>
    constructor
    · intro t s parts sent sent_pos hle
      exact absurd hle (by omega)
    · intro t s parts sent sent_pos st s' h
      rw [bracket_loop_zero] at h
      exact absurd h (by simp)
  | succ f ih =>
    obtain ⟨ihL, ihLc⟩ := ih
    constructor
    · intro t s parts sent sent_pos hle h
      rw [bracket_loop_succ] at h
      unfold mkLoop at h
      split at h
      · split at h
        · split at h <;> exact absurd h (by simp)
        · exact absurd h (by simp)
      · rename_i hcl
        split at h
        · exact absurd h (by simp)
        · have hne : s.rest ≠ [] := by
            intro he
            rw [he] at hcl
            exact absurd hcl (by simp [SymbolType.classify])
          have h0 : s.rest.length ≠ 0 := by
            simpa using hne
          have htail := List.length_tail s.rest
          exact ihL _ _ _ _ _ (by simp only; omega) h
      · split at h
        · exact absurd h (by simp)
        · rename_i c tl2 heq
          split at h
          · rename_i nx s1 heq2
            have hcons := stmt_consume f ihLc c s nx s1 (by rw [heq]; simp) heq2
            exact ihL _ _ _ _ _ (by omega) h
          · exact absurd h (by simp)
          · exact absurd h (by simp)
          · rename_i heq2
            exact absurd heq2 (stmt_no_oof f ihL c s (by rw [heq]; simp) (by omega))
    · intro t s parts sent sent_pos st s' h
      rw [bracket_loop_succ] at h
      unfold mkLoop at h
      have htail := List.length_tail s.rest
      split at h
      · split at h
        · split at h <;>
            · simp only [PRes.ok.injEq, Prod.mk.injEq] at h
              rw [← h.2]
              simp only
              omega
        · exact absurd h (by simp)
      · split at h
        · exact absurd h (by simp)
        · have := ihLc _ _ _ _ _ _ _ h
          simp only at this
          omega
      · split at h
        · exact absurd h (by simp)
        · rename_i c tl2 heq
          split at h
          · rename_i nx s1 heq2
            have hcons := stmt_consume f ihLc c s nx s1 (by rw [heq]; simp) heq2
            have := ihLc _ _ _ _ _ _ _ h
            omega
          · exact absurd h (by simp)
          · exact absurd h (by simp)
          · exact absurd h (by simp)

theorem top_no_oof (f : Nat) : ∀ (s : ParserSt) (acc : List (Statement × Span)),
    s.rest.length + 1 ≤ f → top_loop f s acc ≠ PRes.oof := by
  induction f with
  | zero =>
    intro s acc hle
    exact absurd hle (by omega)
  | succ f ih =>
    intro s acc hle h
    unfold top_loop at h
    split at h
    · exact absurd h (by simp)
    · rename_i c tl2 heq
      split at h
      · rename_i nx s1 heq2
        have hcons := stmt_consume (f + 1) (loop_fuel (f + 1)).2 c s nx s1
          (by rw [heq]; simp) heq2
        exact ih _ _ (by omega) h
      · exact absurd h (by simp)
      · exact absurd h (by simp)
      · rename_i heq2
        exact absurd heq2 (stmt_no_oof (f + 1) (loop_fuel (f + 1)).1 c s
          (by rw [heq]; simp) (by omega))

/-- C10: for every input line, `parse` terminates within fuel bounded by
the line length: the fuel-exhaustion marker is unreachable, because the
top-level dispatch loop and the bracket-group loop each consume at least
one character per iteration or exit. -/
theorem claim_C10 (line : String) (num : Nat) : parse line num ≠ PRes.oof := by
  intro h
  simp only [parse] at h
  split at h
  · exact absurd h (by simp)
  · split at h
    · exact absurd h (by simp)
    · split at h
      · split at h <;> exact absurd h (by simp)
      · exact absurd h (by simp)
      · exact absurd h (by simp)
      · rename_i heq
        exact top_no_oof _ _ _ (by simp) heq

end Yapl
